import Mathlib

/-!
Verification development for the telecom dashboard repository
(`dashboard.py`, `new.py`).  The pipeline's table operations are shallowly
embedded: pandas cells that may be NaN become `Option ℚ`, pandas row-wise
reductions (`mean`, `min`, `max` with skipna) become list functions over the
present values, and the NaN-comparison semantics of Python floats
(`nan < c`, `nan == c`, … are all `False`) is made explicit in boolean
comparison helpers.
-/

namespace Telecom

/-- Minimum of a list of rationals, `none` on the empty list.  Models
pandas `Series.min(axis=1)` with skipna over the present values. -/
def optMin : List ℚ → Option ℚ
  | [] => none
  | x :: xs =>
    match optMin xs with
    | none => some x
    | some m => some (min x m)

/-- Maximum of a list of rationals, `none` on the empty list.  Models
pandas `Series.max(axis=1)` with skipna over the present values. -/
def optMax : List ℚ → Option ℚ
  | [] => none
  | x :: xs =>
    match optMax xs with
    | none => some x
    | some m => some (max x m)

/-- Mean of the present values of a list of optional rationals; `none`
when no value is present.  Models pandas `DataFrame.mean(axis=1)`
(skipna): the mean of the non-missing entries, NaN when all are missing. -/
def meanOpt (l : List (Option ℚ)) : Option ℚ :=
  let p := l.filterMap id
  if p.isEmpty then none else some (p.sum / p.length)

/-- `v < c` on a possibly-NaN value: `False` when missing, mirroring
Python float NaN comparison semantics used by pandas boolean masks. -/
def ltNan (v : Option ℚ) (c : ℚ) : Bool :=
  match v with
  | some m => decide (m < c)
  | none => false

/-- `v > c` on a possibly-NaN value: `False` when missing. -/
def gtNan (v : Option ℚ) (c : ℚ) : Bool :=
  match v with
  | some m => decide (c < m)
  | none => false

theorem optMin_eq_none_iff (l : List ℚ) : optMin l = none ↔ l = [] := by
  cases l with
  | nil => simp [optMin]
  | cons x xs =>
    simp only [optMin]
    cases h : optMin xs <;> simp

theorem optMin_lt_iff (c : ℚ) (l : List ℚ) :
    (∃ m, optMin l = some m ∧ m < c) ↔ ∃ x ∈ l, x < c := by
  induction l with
  | nil => simp [optMin]
  | cons x xs ih =>
    simp only [optMin]
    cases h : optMin xs with
    | none =>
      have hx : xs = [] := (optMin_eq_none_iff xs).mp h
      subst hx
      simp
    | some m =>
      constructor
      · rintro ⟨m', hm', hlt⟩
        simp only [Option.some.injEq] at hm'
        subst hm'
        rcases min_lt_iff.mp hlt with h1 | h2
        · exact ⟨x, by simp, h1⟩
        · rcases ih.mp ⟨m, h, h2⟩ with ⟨y, hy, hylt⟩
          exact ⟨y, by simp [hy], hylt⟩
      · rintro ⟨y, hy, hylt⟩
        refine ⟨min x m, rfl, ?_⟩
        rcases List.mem_cons.mp hy with rfl | hy'
        · exact min_lt_iff.mpr (Or.inl hylt)
        · rcases ih.mpr ⟨y, hy', hylt⟩ with ⟨m', hm', hm'lt⟩
          rw [h] at hm'
          simp only [Option.some.injEq] at hm'
          subst hm'
          exact min_lt_iff.mpr (Or.inr hm'lt)

theorem optMax_eq_none_iff (l : List ℚ) : optMax l = none ↔ l = [] := by
  cases l with
  | nil => simp [optMax]
  | cons x xs =>
    simp only [optMax]
    cases h : optMax xs <;> simp

theorem optMax_gt_iff (c : ℚ) (l : List ℚ) :
    (∃ m, optMax l = some m ∧ c < m) ↔ ∃ x ∈ l, c < x := by
  induction l with
  | nil => simp [optMax]
  | cons x xs ih =>
    simp only [optMax]
    cases h : optMax xs with
    | none =>
      have hx : xs = [] := (optMax_eq_none_iff xs).mp h
      subst hx
      simp
    | some m =>
      constructor
      · rintro ⟨m', hm', hlt⟩
        simp only [Option.some.injEq] at hm'
        subst hm'
        rcases lt_max_iff.mp hlt with h1 | h2
        · exact ⟨x, by simp, h1⟩
        · rcases ih.mp ⟨m, h, h2⟩ with ⟨y, hy, hylt⟩
          exact ⟨y, by simp [hy], hylt⟩
      · rintro ⟨y, hy, hylt⟩
        refine ⟨max x m, rfl, ?_⟩
        rcases List.mem_cons.mp hy with rfl | hy'
        · exact lt_max_iff.mpr (Or.inl hylt)
        · rcases ih.mpr ⟨y, hy', hylt⟩ with ⟨m', hm', hm'lt⟩
          rw [h] at hm'
          simp only [Option.some.injEq] at hm'
          subst hm'
          exact lt_max_iff.mpr (Or.inr hm'lt)

theorem ltNan_eq_true_iff (v : Option ℚ) (c : ℚ) :
    ltNan v c = true ↔ ∃ m, v = some m ∧ m < c := by
  cases v <;> simp [ltNan]

theorem gtNan_eq_true_iff (v : Option ℚ) (c : ℚ) :
    gtNan v c = true ↔ ∃ m, v = some m ∧ c < m := by
  cases v <;> simp [gtNan]

end Telecom

namespace Telecom

/-!
## Risk detector (`dashboard.py`, problematic-sites block)

Non-daily granularity works on the currently resampled tables: a row of a
table is a site identifier plus a cell map from interval-column names to
possibly-missing values.  `file_risk_sites` embeds
`sample_data[sample_interval_cols].min(axis=1) < 100` followed by
`sample_data.loc[mask, "gNodeB"].unique()` (with the guard returning `[]`
when no interval column is present); `delay_risk_sites` embeds the
`max(axis=1) > 20` mask.  Daily granularity works on the dense-grid rows
carrying one `daily_avg` each and embeds
`sample_data["daily_avg"].fillna(100) < 100` and
`delay_data["daily_avg"].fillna(0) > 20`.  The final set is
`sorted(list(set(file_risk_sites + delay_risk_sites)))`.
-/

/-- A row of a non-daily (15-minute or hourly) resampled table: the site
identifier and the map from column names to possibly-missing cell values. -/
structure NRow where
  gNodeB : String
  cells : String → Option ℚ

/-- The present (non-missing) values of a row over the given interval
columns, in column order. -/
def rowVals (cols : List String) (r : NRow) : List ℚ :=
  cols.filterMap r.cells

/-- Sites whose row-wise minimum arrival value over the present interval
columns is `< 100`; `[]` when no interval column is present
(`if sample_interval_cols: ... else: file_risk_sites = []`). -/
def file_risk_sites (cols : List String) (rows : List NRow) : List String :=
  if cols.isEmpty then []
  else ((rows.filter (fun r => ltNan (optMin (rowVals cols r)) 100)).map
    (fun r => r.gNodeB)).dedup

/-- Sites whose row-wise maximum delay value over the present interval
columns is `> 20`; `[]` when no interval column is present. -/
def delay_risk_sites (cols : List String) (rows : List NRow) : List String :=
  if cols.isEmpty then []
  else ((rows.filter (fun r => gtNan (optMax (rowVals cols r)) 20)).map
    (fun r => r.gNodeB)).dedup

/-- Insert a string into a list so that an already ≤-sorted list stays
sorted; helper for the executable model of Python's `sorted(...)`. -/
def insertSorted (a : String) : List String → List String
  | [] => [a]
  | b :: bs => if a ≤ b then a :: b :: bs else b :: insertSorted a bs

/-- Insertion sort on strings: executable model of Python's `sorted(...)`
(a permutation of its input in ascending order). -/
def sortStrs : List String → List String
  | [] => []
  | a :: as => insertSorted a (sortStrs as)

theorem mem_insertSorted (a b : String) (l : List String) :
    a ∈ insertSorted b l ↔ a = b ∨ a ∈ l := by
  induction l with
  | nil => simp [insertSorted]
  | cons c cs ih =>
    simp only [insertSorted]
    split
    · simp
    · simp only [List.mem_cons, ih]
      tauto

theorem mem_sortStrs (a : String) (l : List String) :
    a ∈ sortStrs l ↔ a ∈ l := by
  induction l with
  | nil => simp [sortStrs]
  | cons b bs ih => simp [sortStrs, mem_insertSorted, ih]

/-- `risk_gnodes` at non-daily granularity:
`sorted(list(set(list(file_risk_sites) + list(delay_risk_sites))))`. -/
def risk_gnodes (sCols dCols : List String) (sample delay : List NRow) :
    List String :=
  sortStrs ((file_risk_sites sCols sample ++ delay_risk_sites dCols delay).dedup)

/-- A row of a daily-resampled (dense-grid) table: site identifier plus the
possibly-missing `daily_avg` value (a pure left-join gap has `none`). -/
structure DRow where
  gNodeB : String
  daily_avg : Option ℚ
deriving DecidableEq

/-- Daily arrival risk mask: `sample_data["daily_avg"].fillna(100) < 100`. -/
def file_risk_sites_daily (rows : List DRow) : List String :=
  ((rows.filter (fun r => decide (r.daily_avg.getD 100 < 100))).map
    (fun r => r.gNodeB)).dedup

/-- Daily delay risk mask: `delay_data["daily_avg"].fillna(0) > 20`. -/
def delay_risk_sites_daily (rows : List DRow) : List String :=
  ((rows.filter (fun r => decide ((20 : ℚ) < r.daily_avg.getD 0))).map
    (fun r => r.gNodeB)).dedup

/-- `risk_gnodes` at daily granularity. -/
def risk_gnodes_daily (sample delay : List DRow) : List String :=
  sortStrs ((file_risk_sites_daily sample ++ delay_risk_sites_daily delay).dedup)

/-- All present values of a given site across all its rows and all interval
columns of the table. -/
def siteVals (cols : List String) (rows : List NRow) (g : String) : List ℚ :=
  (rows.filter (fun r => decide (r.gNodeB = g))).flatMap (rowVals cols)

theorem mem_file_risk_sites (cols : List String) (rows : List NRow) (g : String) :
    g ∈ file_risk_sites cols rows ↔
      ∃ r ∈ rows, ltNan (optMin (rowVals cols r)) 100 = true ∧ r.gNodeB = g := by
  unfold file_risk_sites
  by_cases hc : cols.isEmpty
  · have hnil : cols = [] := List.isEmpty_iff.mp hc
    subst hnil
    simp [rowVals, optMin, ltNan]
  · simp only [hc, Bool.false_eq_true, if_false, List.mem_dedup, List.mem_map,
      List.mem_filter]
    constructor
    · rintro ⟨r, ⟨hr, hp⟩, hg⟩
      exact ⟨r, hr, hp, hg⟩
    · rintro ⟨r, hr, hp, hg⟩
      exact ⟨r, ⟨hr, hp⟩, hg⟩

theorem mem_delay_risk_sites (cols : List String) (rows : List NRow) (g : String) :
    g ∈ delay_risk_sites cols rows ↔
      ∃ r ∈ rows, gtNan (optMax (rowVals cols r)) 20 = true ∧ r.gNodeB = g := by
  unfold delay_risk_sites
  by_cases hc : cols.isEmpty
  · have hnil : cols = [] := List.isEmpty_iff.mp hc
    subst hnil
    simp [rowVals, optMax, gtNan]
  · simp only [hc, Bool.false_eq_true, if_false, List.mem_dedup, List.mem_map,
      List.mem_filter]
    constructor
    · rintro ⟨r, ⟨hr, hp⟩, hg⟩
      exact ⟨r, hr, hp, hg⟩
    · rintro ⟨r, hr, hp, hg⟩
      exact ⟨r, ⟨hr, hp⟩, hg⟩

theorem siteMin_lt_iff (cols : List String) (rows : List NRow) (g : String) :
    (∃ m, optMin (siteVals cols rows g) = some m ∧ m < 100) ↔
      ∃ r ∈ rows, ltNan (optMin (rowVals cols r)) 100 = true ∧ r.gNodeB = g := by
  rw [optMin_lt_iff]
  simp only [siteVals, List.mem_flatMap, List.mem_filter, decide_eq_true_iff]
  constructor
  · rintro ⟨x, ⟨r, ⟨hr, hg⟩, hx⟩, hxlt⟩
    exact ⟨r, hr, (ltNan_eq_true_iff _ _).mpr ((optMin_lt_iff _ _).mpr ⟨x, hx, hxlt⟩), hg⟩
  · rintro ⟨r, hr, hlt, hg⟩
    rcases (optMin_lt_iff _ _).mp ((ltNan_eq_true_iff _ _).mp hlt) with ⟨x, hx, hxlt⟩
    exact ⟨x, ⟨r, ⟨hr, hg⟩, hx⟩, hxlt⟩

theorem siteMax_gt_iff (cols : List String) (rows : List NRow) (g : String) :
    (∃ m, optMax (siteVals cols rows g) = some m ∧ 20 < m) ↔
      ∃ r ∈ rows, gtNan (optMax (rowVals cols r)) 20 = true ∧ r.gNodeB = g := by
  rw [optMax_gt_iff]
  simp only [siteVals, List.mem_flatMap, List.mem_filter, decide_eq_true_iff]
  constructor
  · rintro ⟨x, ⟨r, ⟨hr, hg⟩, hx⟩, hxlt⟩
    exact ⟨r, hr, (gtNan_eq_true_iff _ _).mpr ((optMax_gt_iff _ _).mpr ⟨x, hx, hxlt⟩), hg⟩
  · rintro ⟨r, hr, hlt, hg⟩
    rcases (optMax_gt_iff _ _).mp ((gtNan_eq_true_iff _ _).mp hlt) with ⟨x, hx, hxlt⟩
    exact ⟨x, ⟨r, ⟨hr, hg⟩, hx⟩, hxlt⟩

theorem mem_risk_gnodes (sCols dCols : List String) (sample delay : List NRow)
    (g : String) :
    g ∈ risk_gnodes sCols dCols sample delay ↔
      g ∈ file_risk_sites sCols sample ∨ g ∈ delay_risk_sites dCols delay := by
  unfold risk_gnodes
  rw [mem_sortStrs]
  simp

theorem mem_risk_gnodes_daily (sample delay : List DRow) (g : String) :
    g ∈ risk_gnodes_daily sample delay ↔
      g ∈ file_risk_sites_daily sample ∨ g ∈ delay_risk_sites_daily delay := by
  unfold risk_gnodes_daily
  rw [mem_sortStrs]
  simp

theorem mem_file_risk_sites_daily (rows : List DRow) (g : String) :
    g ∈ file_risk_sites_daily rows ↔
      ∃ r ∈ rows, r.gNodeB = g ∧ r.daily_avg.getD 100 < 100 := by
  unfold file_risk_sites_daily
  simp only [List.mem_dedup, List.mem_map, List.mem_filter, decide_eq_true_iff]
  constructor
  · rintro ⟨r, ⟨hr, hp⟩, hg⟩
    exact ⟨r, hr, hg, hp⟩
  · rintro ⟨r, hr, hg, hp⟩
    exact ⟨r, ⟨hr, hp⟩, hg⟩

theorem mem_delay_risk_sites_daily (rows : List DRow) (g : String) :
    g ∈ delay_risk_sites_daily rows ↔
      ∃ r ∈ rows, r.gNodeB = g ∧ (20 : ℚ) < r.daily_avg.getD 0 := by
  unfold delay_risk_sites_daily
  simp only [List.mem_dedup, List.mem_map, List.mem_filter, decide_eq_true_iff]
  constructor
  · rintro ⟨r, ⟨hr, hp⟩, hg⟩
    exact ⟨r, hr, hg, hp⟩
  · rintro ⟨r, hr, hg, hp⟩
    exact ⟨r, ⟨hr, hp⟩, hg⟩

end Telecom

namespace Telecom

/-- Claim C1: for every pair of resampled tables the risk detector returns
the union of arrival-risky and delay-risky sites.  At non-daily granularity
a site is risky iff the minimum of its present arrival interval values is
`< 100` or the maximum of its present delay interval values is `> 20`; at
daily granularity a site is risky iff some of its grid rows has
`daily_avg` arrival (missing treated as `100`) `< 100` or `daily_avg`
delay (missing treated as `0`) `> 20`; consequently a site whose grid rows
are all missing in both tables is never classified risky. -/
theorem risk_detector_characterization :
    (∀ (sCols dCols : List String) (sample delay : List NRow) (g : String),
      g ∈ risk_gnodes sCols dCols sample delay ↔
        ((∃ m, optMin (siteVals sCols sample g) = some m ∧ m < 100) ∨
         (∃ m, optMax (siteVals dCols delay g) = some m ∧ 20 < m))) ∧
    (∀ (sample delay : List DRow) (g : String),
      g ∈ risk_gnodes_daily sample delay ↔
        ((∃ r ∈ sample, r.gNodeB = g ∧ r.daily_avg.getD 100 < 100) ∨
         (∃ r ∈ delay, r.gNodeB = g ∧ (20 : ℚ) < r.daily_avg.getD 0))) ∧
    (∀ (sample delay : List DRow) (g : String),
      (∀ r ∈ sample, r.gNodeB = g → r.daily_avg = none) →
      (∀ r ∈ delay, r.gNodeB = g → r.daily_avg = none) →
      g ∉ risk_gnodes_daily sample delay) := by
  refine ⟨?_, ?_, ?_⟩
  · intro sCols dCols sample delay g
    rw [mem_risk_gnodes, mem_file_risk_sites, mem_delay_risk_sites,
      ← siteMin_lt_iff, ← siteMax_gt_iff]
  · intro sample delay g
    rw [mem_risk_gnodes_daily, mem_file_risk_sites_daily, mem_delay_risk_sites_daily]
  · intro sample delay g hs hd hmem
    rw [mem_risk_gnodes_daily, mem_file_risk_sites_daily,
      mem_delay_risk_sites_daily] at hmem
    rcases hmem with ⟨r, hr, hg, hlt⟩ | ⟨r, hr, hg, hlt⟩
    · rw [hs r hr hg] at hlt
      simp at hlt
    · rw [hd r hr hg] at hlt
      norm_num at hlt

/-- Witness for C1: a site present only as an all-missing left-join gap in
both daily tables is not classified risky. -/
theorem risk_detector_characterization_witness :
    "S1" ∉ risk_gnodes_daily [⟨"S1", none⟩] [⟨"S1", none⟩] :=
  risk_detector_characterization.2.2 [⟨"S1", none⟩] [⟨"S1", none⟩] "S1"
    (by decide) (by decide)

end Telecom

namespace Telecom

/-!
## Cascading filter engine (`dashboard.py`, sidebar filters)

`combined` embeds `pd.concat([df_perc[idcols], df_delay[idcols]])`: the
row-wise union of both tables' identity columns.  After normalization the
`market` column has been coerced to string (`astype(str)`), so market
cells are plain strings and `dropna()` on them is the identity; region
values that do not match the selected region simply fail the equality
mask.  `filtered_markets` embeds
`sorted(combined[combined["region"] == selected_region]["market"].dropna().unique().tolist())`
and `all_markets` the `selected_region == "All"` branch.
-/

/-- Identity columns of one source row used by the cascading filters. -/
structure IdRow where
  region : String
  market : String
deriving DecidableEq

/-- Row-wise union of the two tables' identity columns (`pd.concat`). -/
def combined (a b : List IdRow) : List IdRow := a ++ b

/-- Full market domain: sorted distinct market values of `combined`. -/
def all_markets (rows : List IdRow) : List String :=
  sortStrs ((rows.map (fun r => r.market)).dedup)

/-- Market domain when a region is selected: sorted distinct market values
of the rows whose region equals the selection. -/
def filtered_markets (rows : List IdRow) (R : String) : List String :=
  sortStrs (((rows.filter (fun r => decide (r.region = R))).map (fun r => r.market)).dedup)

theorem mem_all_markets (rows : List IdRow) (m : String) :
    m ∈ all_markets rows ↔ ∃ r ∈ rows, r.market = m := by
  unfold all_markets
  rw [mem_sortStrs]
  simp only [List.mem_dedup, List.mem_map]

theorem mem_filtered_markets (rows : List IdRow) (R m : String) :
    m ∈ filtered_markets rows R ↔ ∃ r ∈ rows, r.region = R ∧ r.market = m := by
  unfold filtered_markets
  rw [mem_sortStrs]
  simp only [List.mem_dedup, List.mem_map, List.mem_filter, decide_eq_true_iff]
  constructor
  · rintro ⟨r, ⟨hr, hR⟩, hm⟩
    exact ⟨r, hr, hR, hm⟩
  · rintro ⟨r, hr, hR, hm⟩
    exact ⟨r, ⟨hr, hR⟩, hm⟩

/-- Claim C3: for any region `R`, the market domain produced when `R` is
selected is a subset of the full market domain and is exactly the set of
distinct markets having at least one row with region `R` in the union of
both source tables. -/
theorem cascading_market_domain (a b : List IdRow) (R : String) :
    (∀ m ∈ filtered_markets (combined a b) R, m ∈ all_markets (combined a b)) ∧
    (∀ m, m ∈ filtered_markets (combined a b) R ↔
      ∃ r ∈ combined a b, r.region = R ∧ r.market = m) := by
  constructor
  · intro m hm
    rcases (mem_filtered_markets _ _ _).mp hm with ⟨r, hr, _, hmkt⟩
    exact (mem_all_markets _ _).mpr ⟨r, hr, hmkt⟩
  · intro m
    exact mem_filtered_markets _ _ _

/-- Witness for C3 at a concrete pair of tables: the market of an
East-region row of the first table is in the full market domain. -/
theorem cascading_market_domain_witness :
    "M1" ∈ all_markets (combined [⟨"East", "M1"⟩] [⟨"West", "M2"⟩]) :=
  (cascading_market_domain [⟨"East", "M1"⟩] [⟨"West", "M2"⟩] "East").1 "M1" (by decide)

/-!
## Site (gNodeB) selection (`dashboard.py`, multiselect and `apply_filters`)

`effective_gnodes` embeds
`if "All" in selected_gnodes or not selected_gnodes: selected_gnodes = filtered_gnodes`;
`site_filter` embeds the final predicate of `apply_filters`:
`if "gNodeB" in df.columns and selected_gnodes: df = df[df["gNodeB"].isin(selected_gnodes)]`,
which is skipped entirely when the selection list is empty.
`selected_after_risk` and `risk_notice` embed the problematic-sites
branch `if not risk_gnodes: st.info(...) else: selected_gnodes = risk_gnodes`:
on an empty risk set only the notice is emitted and the previous
selection is kept.
-/

/-- Effective site selection after the "All"-sentinel / empty check. -/
def effective_gnodes (sel filtered : List String) : List String :=
  if "All" ∈ sel ∨ sel = [] then filtered else sel

/-- The per-table site predicate of `apply_filters`. -/
def site_filter (sel : List String) (rows : List NRow) : List NRow :=
  if sel.isEmpty then rows
  else rows.filter (fun r => sel.contains r.gNodeB)

/-- Site selection after the problematic-sites-only branch. -/
def selected_after_risk (riskOnly : Bool) (riskSet prior : List String) :
    List String :=
  if riskOnly then (if riskSet.isEmpty then prior else riskSet) else prior

/-- Whether the "No problematic sites found" notice is emitted. -/
def risk_notice (riskOnly : Bool) (riskSet : List String) : Bool :=
  riskOnly && riskSet.isEmpty

/-- Claim C10: an empty or "All"-containing site multiselect is replaced by
the full upstream-filtered site domain, and the per-table site predicate is
skipped (the table passes through unchanged) when the effective selection
list is empty. -/
theorem site_selection_semantics :
    (∀ sel filtered : List String, ("All" ∈ sel ∨ sel = []) →
      effective_gnodes sel filtered = filtered) ∧
    (∀ sel filtered : List String, ¬("All" ∈ sel ∨ sel = []) →
      effective_gnodes sel filtered = sel) ∧
    (∀ rows : List NRow, site_filter [] rows = rows) := by
  refine ⟨?_, ?_, ?_⟩
  · intro sel filtered h
    simp [effective_gnodes, h]
  · intro sel filtered h
    simp [effective_gnodes, h]
  · intro rows
    simp [site_filter]

/-- Witness for C10: the default `["All"]` selection is replaced by the
full filtered domain. -/
theorem site_selection_semantics_witness :
    effective_gnodes ["All"] ["S1", "S2"] = ["S1", "S2"] :=
  site_selection_semantics.1 ["All"] ["S1", "S2"] (Or.inl (by decide))

/-- Counterexample for C8: with "problematic sites only" enabled and a pair
of daily tables containing no risky site, the notice is emitted but the
effective selection stays at the previously computed full site domain
`["S1"]` — the dependent views are not skipped (the site predicate keeps
every row of the filtered table), contradicting the claim that the
selection never falls back to the unfiltered site set. -/
theorem empty_risk_fallback_counterexample :
    risk_gnodes_daily [⟨"S1", some 100⟩] [⟨"S1", some 5⟩] = [] ∧
    risk_notice true (risk_gnodes_daily [⟨"S1", some 100⟩] [⟨"S1", some 5⟩]) = true ∧
    selected_after_risk true
      (risk_gnodes_daily [⟨"S1", some 100⟩] [⟨"S1", some 5⟩]) ["S1"] = ["S1"] ∧
    site_filter
      (selected_after_risk true
        (risk_gnodes_daily [⟨"S1", some 100⟩] [⟨"S1", some 5⟩]) ["S1"])
      [⟨"S1", fun _ => some 100⟩] = [⟨"S1", fun _ => some 100⟩] :=
  ⟨by decide, by decide, by decide, by rfl⟩

/-- Claim C8 as amended: when "problematic sites only" yields zero risky
sites, the informational notice is emitted and the effective site
selection silently keeps its prior value (the full filtered site domain
under the default "All" selection); dependent views are not skipped. -/
theorem empty_risk_keeps_prior_selection (sample delay : List DRow)
    (prior : List String) (h : risk_gnodes_daily sample delay = []) :
    risk_notice true (risk_gnodes_daily sample delay) = true ∧
    selected_after_risk true (risk_gnodes_daily sample delay) prior = prior := by
  rw [h]
  exact ⟨rfl, rfl⟩

/-- Witness for the amended C8 at a concrete risk-free pair of tables. -/
theorem empty_risk_keeps_prior_selection_witness :
    risk_notice true (risk_gnodes_daily [⟨"S9", some 100⟩] []) = true ∧
    selected_after_risk true (risk_gnodes_daily [⟨"S9", some 100⟩] [])
      ["S9", "S8"] = ["S9", "S8"] :=
  empty_risk_keeps_prior_selection [⟨"S9", some 100⟩] [] ["S9", "S8"] (by decide)

end Telecom

namespace Telecom

/-!
## Resampler (`dashboard.py`, `resample_to_hourly` / `resample_to_daily`)

`HOUR_MAP` maps the zero-padded hour key `"HH"` to its four quarter-hour
column names `"HH:MM"`, `MM ∈ {00,15,30,45}`; `original_interval_cols` is
the full 96-column grid (the non-metadata columns of the loaded table).
`hourly_cell` embeds one hour of `resample_to_hourly`:
`existing = [c for c in cols if c in df.columns]`, and only `if existing:`
is the hour column created (outer `none` = column absent), its value the
skipna row mean.  `daily_avg_cell` embeds `resample_to_daily`:
the skipna mean over the interval columns present in the table, and
explicitly `pd.NA` (here `none`) when no interval column is present.
-/

/-- Zero-padded two-digit rendering of an hour/minute number
(`f"{h:02d}"`). -/
def pad2 (n : Nat) : String :=
  if n < 10 then "0" ++ toString n else toString n

/-- `HOUR_MAP[pad2 h]`: the four quarter-hour column names of hour `h`. -/
def hourCols (h : Nat) : List String :=
  [pad2 h ++ ":" ++ pad2 0, pad2 h ++ ":" ++ pad2 15,
   pad2 h ++ ":" ++ pad2 30, pad2 h ++ ":" ++ pad2 45]

/-- The 96 interval columns `"HH:MM"` of the loaded table, in grid order. -/
def original_interval_cols : List String :=
  (List.range 24).flatMap hourCols

/-- One hour column of `resample_to_hourly` applied to a row with cell map
`cells` of a table having columns `dcols`: `none` when no quarter-hour
column of the hour exists in the table (no hour column is created),
otherwise the skipna mean of the existing quarter-hour cells. -/
def hourly_cell (dcols : List String) (cells : String → Option ℚ) (h : Nat) :
    Option (Option ℚ) :=
  let existing := (hourCols h).filter (fun c => decide (c ∈ dcols))
  if existing.isEmpty then none else some (meanOpt (existing.map cells))

/-- The `daily_avg` cell of `resample_to_daily` for a row with cell map
`cells`, given the requested interval columns and the table's columns:
explicitly missing when no interval column is present. -/
def daily_avg_cell (intervalCols dcols : List String)
    (cells : String → Option ℚ) : Option ℚ :=
  let existing := intervalCols.filter (fun c => decide (c ∈ dcols))
  if existing.isEmpty then none else meanOpt (existing.map cells)

theorem filterMap_eq_map_of_forall {α β : Type} (l : List α) (f : α → Option β)
    (g : α → β) (h : ∀ a ∈ l, f a = some (g a)) : l.filterMap f = l.map g := by
  induction l with
  | nil => rfl
  | cons x xs ih =>
    have hx := h x (by simp)
    simp [List.filterMap_cons, hx, ih (fun a ha => h a (by simp [ha]))]

theorem sum_map_div_const {α : Type} (l : List α) (g : α → ℚ) (a : ℚ) :
    (l.map (fun x => g x / a)).sum = (l.map g).sum / a := by
  induction l with
  | nil => simp
  | cons x xs ih => simp [ih, add_div]

theorem sum_map_flatMap {α β : Type} (l : List α) (f : α → List β) (g : β → ℚ) :
    ((l.flatMap f).map g).sum = (l.map (fun a => ((f a).map g).sum)).sum := by
  rw [List.map_flatMap]
  simp [List.flatMap, List.sum_flatten, Function.comp_def]

theorem meanOpt_of_all_some (l : List String) (cells : String → Option ℚ)
    (v : String → ℚ) (hv : ∀ c ∈ l, cells c = some (v c)) (hne : l ≠ []) :
    meanOpt (l.map cells) = some ((l.map v).sum / l.length) := by
  unfold meanOpt
  have h1 : (l.map cells).filterMap id = l.map v := by
    rw [List.filterMap_map]
    exact filterMap_eq_map_of_forall l _ v (by simpa using hv)
  rw [h1]
  have h2 : (l.map v).isEmpty = false := by
    cases l with
    | nil => exact absurd rfl hne
    | cons x xs => rfl
  simp [h2]

theorem meanOpt_of_all_none (l : List String) (cells : String → Option ℚ)
    (hv : ∀ c ∈ l, cells c = none) : meanOpt (l.map cells) = none := by
  unfold meanOpt
  have h1 : (l.map cells).filterMap id = [] := by
    rw [List.filterMap_map]
    rw [List.filterMap_eq_nil_iff]
    simpa using hv
  rw [h1]
  rfl

theorem hourCols_subset_intervals (h : Nat) (hh : h ∈ List.range 24) :
    ∀ c ∈ hourCols h, c ∈ original_interval_cols := by
  intro c hc
  exact List.mem_flatMap.mpr ⟨h, hh, hc⟩

theorem length_original_interval_cols : original_interval_cols.length = 96 := by
  decide

/-- Claim C4: for a row whose 96 interval values are all present, each
hourly average is the mean of its four quarter-hour values, and the
`daily_avg` of the daily resampler equals the arithmetic mean of those 24
hourly averages. -/
theorem resampling_conservation (cells : String → Option ℚ) (v : String → ℚ)
    (hv : ∀ c ∈ original_interval_cols, cells c = some (v c)) :
    (∀ h ∈ List.range 24,
      hourly_cell original_interval_cols cells h =
        some (some (((hourCols h).map v).sum / 4))) ∧
    daily_avg_cell original_interval_cols original_interval_cols cells =
      some (((List.range 24).map
        (fun h => ((hourCols h).map v).sum / 4)).sum / 24) := by
  constructor
  · intro h hh
    unfold hourly_cell
    have hsub := hourCols_subset_intervals h hh
    have hfil : (hourCols h).filter (fun c => decide (c ∈ original_interval_cols)) =
        hourCols h :=
      List.filter_eq_self.mpr (fun c hc => decide_eq_true (hsub c hc))
    simp only [hfil]
    have hne : hourCols h ≠ [] := by simp [hourCols]
    have hmean := meanOpt_of_all_some (hourCols h) cells v
      (fun c hc => hv c (hsub c hc)) hne
    have hlen : ((hourCols h).length : ℚ) = 4 := by simp [hourCols]
    have hemp : (hourCols h).isEmpty = false := by simp [hourCols]
    rw [hemp]
    simp only [Bool.false_eq_true, if_false]
    rw [hmean, hlen]
  · unfold daily_avg_cell
    have hfil : original_interval_cols.filter
        (fun c => decide (c ∈ original_interval_cols)) = original_interval_cols :=
      List.filter_eq_self.mpr (fun c hc => decide_eq_true hc)
    simp only [hfil]
    have hne : original_interval_cols ≠ [] := by decide
    have hmean := meanOpt_of_all_some original_interval_cols cells v hv hne
    have hempty : original_interval_cols.isEmpty = false := by decide
    rw [hempty]
    simp only [Bool.false_eq_true, if_false]
    rw [hmean]
    congr 1
    rw [length_original_interval_cols]
    unfold original_interval_cols
    rw [sum_map_flatMap, sum_map_div_const]
    rw [div_div]
    norm_num

/-- Witness for C4 on a row whose 96 interval values all equal `50`. -/
theorem resampling_conservation_witness :
    daily_avg_cell original_interval_cols original_interval_cols
        (fun _ => some 50) =
      some (((List.range 24).map
        (fun h => ((hourCols h).map (fun _ => (50 : ℚ))).sum / 4)).sum / 24) :=
  (resampling_conservation (fun _ => some 50) (fun _ => 50) (fun _ _ => rfl)).2

/-- Claim C5: if every interval value feeding an aggregate is missing —
or no interval column is present at all — the resampled aggregate (each
created hourly column, and `daily_avg`) is missing, never zero. -/
theorem missing_safe_aggregation (dcols intervalCols : List String)
    (cells : String → Option ℚ) :
    ((∀ c ∈ intervalCols, cells c = none) →
      daily_avg_cell intervalCols dcols cells = none) ∧
    (∀ h : Nat, (∀ c ∈ hourCols h, cells c = none) →
      hourly_cell dcols cells h = none ∨
        hourly_cell dcols cells h = some none) := by
  constructor
  · intro hmiss
    unfold daily_avg_cell
    by_cases he : (intervalCols.filter (fun c => decide (c ∈ dcols))).isEmpty
    · simp [he]
    · rw [if_neg (by simp [he])]
      exact meanOpt_of_all_none _ cells
        (fun c hc => hmiss c (List.mem_filter.mp hc).1)
  · intro h hmiss
    unfold hourly_cell
    by_cases he : ((hourCols h).filter (fun c => decide (c ∈ dcols))).isEmpty
    · left
      simp [he]
    · right
      rw [if_neg (by simp [he])]
      rw [meanOpt_of_all_none _ cells
        (fun c hc => hmiss c (List.mem_filter.mp hc).1)]

/-- Witness for C5 on an all-missing row over the full 96-column grid. -/
theorem missing_safe_aggregation_witness :
    daily_avg_cell original_interval_cols original_interval_cols
        (fun _ => none) = none ∧
    (hourly_cell original_interval_cols (fun _ => none) 0 = none ∨
      hourly_cell original_interval_cols (fun _ => none) 0 = some none) :=
  ⟨(missing_safe_aggregation original_interval_cols original_interval_cols
      (fun _ => none)).1 (fun _ _ => rfl),
   (missing_safe_aggregation original_interval_cols original_interval_cols
      (fun _ => none)).2 0 (fun _ _ => rfl)⟩

end Telecom

namespace Telecom

/-!
## Export formatter vs. display styler
(`dashboard.py`, `df_to_excel_with_colors` / `apply_heatmap_style`)

A data cell of the pivot matrix is either a numeric value, NaN (a missing
entry of the pivot), or a non-numeric value on which `float(...)` raises.
The export encoder does `try: val = float(cell.value) except: continue`;
`float(nan)` succeeds, and every comparison against NaN is `False`, so a
NaN cell falls through all threshold branches into the final `else`.
The styler checks `pd.isna(v)` first and returns the white style.
`excel_fill` returns the `(fill_color, font_color)` pair actually set on
the cell (`none` = no fill, the `continue` path); `style_css` returns the
CSS string of `style_func`.  `cssOfFill` renders an export fill decision
in the styler's CSS shape so the two bands can be compared.
-/

/-- Heatmap mode: arrival percentages or delay minutes. -/
inductive Mode
  | arrival
  | delay
deriving DecidableEq

/-- A pivot cell as seen by the two color banders. -/
inductive ECell
  | num (v : ℚ)
  | nan
  | nonNum
deriving DecidableEq

/-- `val == c` after `float()` conversion: `False` for NaN. -/
def feq : ECell → ℚ → Bool
  | .num v, c => decide (v = c)
  | _, _ => false

/-- `val >= c` after `float()` conversion: `False` for NaN. -/
def fge : ECell → ℚ → Bool
  | .num v, c => decide (c ≤ v)
  | _, _ => false

/-- `val <= c` after `float()` conversion: `False` for NaN. -/
def fle : ECell → ℚ → Bool
  | .num v, c => decide (v ≤ c)
  | _, _ => false

/-- The `(fill_color, font_color)` chosen by `df_to_excel_with_colors`
for one data cell; `none` when the cell is skipped (`float` raised). -/
def excel_fill (mode : Mode) (cell : ECell) : Option (String × String) :=
  match cell with
  | .nonNum => none
  | v =>
    match mode with
    | .arrival =>
      if feq v 100 then some ("08306b", "FFFFFF")
      else if fge v 75 then some ("1f78ff", "FFFFFF")
      else if fge v 50 then some ("73b3ff", "000000")
      else if fge v 25 then some ("d0e7ff", "000000")
      else some ("FF0000", "FFFFFF")
    | .delay =>
      if fle v 5 then some ("d0e7ff", "000000")
      else if fle v 10 then some ("73b3ff", "000000")
      else if fle v 15 then some ("1f78ff", "FFFFFF")
      else some ("08306b", "FFFFFF")

/-- The CSS string returned by `apply_heatmap_style`'s `style_func`. -/
def style_css (mode : Mode) (cell : ECell) : String :=
  match cell with
  | .nan => "background-color:white; color:black"
  | .nonNum => ""
  | .num v =>
    match mode with
    | .arrival =>
      if v = 100 then "background-color:#08306b; color:white"
      else if 75 ≤ v then "background-color:#1f78ff; color:white"
      else if 50 ≤ v then "background-color:#73b3ff"
      else if 25 ≤ v then "background-color:#d0e7ff"
      else "background-color:#FF0000; color:white"
    | .delay =>
      if v ≤ 5 then "background-color:#d0e7ff"
      else if v ≤ 10 then "background-color:#73b3ff"
      else if v ≤ 15 then "background-color:#1f78ff; color:white"
      else "background-color:#08306b; color:white"

/-- Render an export fill decision in the styler's CSS shape (white font
⇒ an explicit `color:white` suffix, black font ⇒ none, no fill ⇒ `""`). -/
def cssOfFill : Option (String × String) → String
  | none => ""
  | some p =>
    if p.2 = "FFFFFF" then "background-color:#" ++ p.1 ++ "; color:white"
    else "background-color:#" ++ p.1

/-- Claim C2: on numeric cells the export encoder and the display styler
choose the same color band (all boundaries included), and both give
non-convertible cells no band; but on a missing (NaN) cell the two
disagree — `float(nan)` succeeds and every threshold comparison is
`False`, so the export encoder paints the extreme band (red `FF0000` for
arrival, darkest blue `08306b` for delay) while the styler renders white,
refuting the parity claim for missing cells. -/
theorem export_render_parity_and_nan_divergence :
    (∀ (m : Mode) (v : ℚ),
      cssOfFill (excel_fill m (.num v)) = style_css m (.num v)) ∧
    (∀ m : Mode, excel_fill m .nonNum = none ∧ style_css m .nonNum = "") ∧
    excel_fill .arrival .nan = some ("FF0000", "FFFFFF") ∧
    excel_fill .delay .nan = some ("08306b", "FFFFFF") ∧
    style_css .arrival .nan = "background-color:white; color:black" ∧
    style_css .delay .nan = "background-color:white; color:black" := by
  refine ⟨?_, ?_, rfl, rfl, rfl, rfl⟩
  · intro m v
    cases m <;>
      simp only [excel_fill, feq, fge, fle, style_css] <;>
      split_ifs <;>
      first
        | rfl
        | simp_all
  · intro m
    cases m <;> exact ⟨rfl, rfl⟩

end Telecom

namespace Telecom

/-!
## Report-date parsing (`dashboard.py` `normalize_cols` / `new.py` `load_data`)

A cell of the report-date column is an already-parsed date, a raw textual
value, or missing.  The external library's date parser is abstracted by a
parameter `p : String → Option Int` (days-since-epoch on success).
`to_datetime_cell` embeds `pd.to_datetime` on one cell: with
`coerce = true` (the dashboard's `errors="coerce"`) an unparsable value
becomes missing; with `coerce = false` (the pandas default used by
`new.py`'s `load_data`) it raises, modelled as `Except.error`.
`parse_filedate_col` applies it down the column, propagating the raise.
-/

/-- One cell of the report-date column. -/
inductive DateCell
  | parsed (d : Int)
  | raw (s : String)
  | na
deriving DecidableEq

/-- `pd.to_datetime` on one cell; `coerce` selects `errors="coerce"`
(dashboard) versus the raising default (`new.py`). -/
def to_datetime_cell (p : String → Option Int) (coerce : Bool) (c : DateCell) :
    Except Unit DateCell :=
  match c with
  | .parsed d => .ok (.parsed d)
  | .na => .ok .na
  | .raw s =>
    match p s with
    | some d => .ok (.parsed d)
    | none => if coerce then .ok .na else .error ()

/-- Parse the whole report-date column, propagating a raise. -/
def parse_filedate_col (p : String → Option Int) (coerce : Bool) :
    List DateCell → Except Unit (List DateCell)
  | [] => .ok []
  | c :: cs =>
    match to_datetime_cell p coerce c with
    | .error e => .error e
    | .ok x =>
      match parse_filedate_col p coerce cs with
      | .error e => .error e
      | .ok xs => .ok (x :: xs)

/-- The total per-cell function the coercing parse agrees with. -/
def to_datetime_coerced (p : String → Option Int) (c : DateCell) : DateCell :=
  match c with
  | .parsed d => .parsed d
  | .na => .na
  | .raw s =>
    match p s with
    | some d => .parsed d
    | none => .na

/-- Date domain builder of the cascading filters:
`combined["filedate"].dropna().dt.date.unique()` — missing dates are
dropped, the rest deduplicated. -/
def date_domain (cells : List DateCell) : List Int :=
  (cells.filterMap (fun c =>
    match c with
    | .parsed d => some d
    | _ => none)).dedup

/-- Concrete stand-in for the external date parser, used to evaluate the
model on explicit inputs: it parses the one sample date and nothing else. -/
def specParse (s : String) : Option Int :=
  if s = "2024-01-01" then some 19723 else none

/-- Counterexample for C9: `new.py`'s `pd.to_datetime(df["filedate"])`
(raising default, no `errors="coerce"`) raises on a column containing one
unparsable date value, refuting "parsing the report-date column never
raises" for every input table of the repository. -/
theorem strict_date_parse_raises_counterexample :
    parse_filedate_col specParse false
      [DateCell.parsed 19722, DateCell.raw "not-a-date"] = .error () := rfl

/-- Claim C9 as amended: the dashboard loader's coercing parse never
raises — it equals per-cell totalized coercion, unparsable values become
explicit missing, every row is retained (one output cell per input cell),
and missing dates are excluded from the date domain used by
date-dependent filtering; `new.py`'s strict-variant parse is the one that
raises (see the counterexample). -/
theorem coerce_date_parse_never_raises (p : String → Option Int) :
    (∀ cells, parse_filedate_col p true cells =
      .ok (cells.map (to_datetime_coerced p))) ∧
    (∀ s, p s = none → to_datetime_coerced p (.raw s) = .na) ∧
    (∀ cells, date_domain (cells ++ [.na]) = date_domain cells) ∧
    (∀ cells : List DateCell,
      (cells.map (to_datetime_coerced p)).length = cells.length) := by
  refine ⟨?_, ?_, ?_, ?_⟩
  · intro cells
    induction cells with
    | nil => rfl
    | cons c cs ih =>
      cases c with
      | parsed d =>
        simp [parse_filedate_col, to_datetime_cell, to_datetime_coerced, ih]
      | na =>
        simp [parse_filedate_col, to_datetime_cell, to_datetime_coerced, ih]
      | raw s =>
        cases hp : p s <;>
          simp [parse_filedate_col, to_datetime_cell, to_datetime_coerced, hp, ih]
  · intro s hs
    simp [to_datetime_coerced, hs]
  · intro cells
    simp [date_domain, List.filterMap_append]
  · intro cells
    simp

/-- Witness for the amended C9: the coercing parse turns a concrete
unparsable value into missing. -/
theorem coerce_date_parse_never_raises_witness :
    to_datetime_coerced specParse (DateCell.raw "not-a-date") = DateCell.na :=
  (coerce_date_parse_never_raises specParse).2.1 "not-a-date" (by decide)

end Telecom

namespace Telecom

/-!
## Schema normalizer (`dashboard.py`, `normalize_cols`)

A table is an ordered association list of (header, cell column).  Cells
are strings, numbers, parsed dates, or missing.  The header transform is
`c.strip().lower().replace("/", "_").replace(" ", "_")`, realised
character-wise (both replacement patterns are single characters).  Then,
in source order: parse `filedate` if present (`errors="coerce"`), rename
`enodeb_gnodeb` to `gNodeB` if present, and coerce `market` to string —
creating a `market` column of empty strings when absent
(`df["market"] = df.get("market", "")` broadcasts the scalar `""`).
`to_datetime_scell`'s raw-string case goes through the abstract parser
`p`; the numeric-epoch path of `pd.to_datetime` (never exercised by these
CSVs, whose date cells are textual) is conservatively sent to missing.
-/

/-- One table cell for the normalizer model. -/
inductive SCell
  | s (v : String)
  | q (v : ℚ)
  | dt (d : Int)
  | na
deriving DecidableEq

/-- A table: ordered association list of header and cell column. -/
abbrev STable := List (String × List SCell)

/-- Character-wise lower-casing (`str.lower`). -/
def lowerStr (x : String) : String :=
  ⟨x.data.map Char.toLower⟩

/-- Strip leading and trailing whitespace (`str.strip`). -/
def trimStr (x : String) : String :=
  ⟨((x.data.dropWhile Char.isWhitespace).reverse.dropWhile
    Char.isWhitespace).reverse⟩

/-- Replace every occurrence of a single character (`str.replace` with a
one-character pattern). -/
def replaceChar (a b : Char) (x : String) : String :=
  ⟨x.data.map (fun c => if c = a then b else c)⟩

/-- The header transform of `normalize_cols`:
`c.strip().lower().replace("/", "_").replace(" ", "_")`. -/
def normHeader (c : String) : String :=
  replaceChar ' ' '_' (replaceChar '/' '_' (lowerStr (trimStr c)))

/-- `pd.to_datetime(..., errors="coerce")` on one normalizer cell. -/
def to_datetime_scell (p : String → Option Int) : SCell → SCell
  | .s v =>
    match p v with
    | some d => .dt d
    | none => .na
  | .q _ => .na
  | .dt d => .dt d
  | .na => .na

/-- `astype(str)` on one cell: strings unchanged, numbers and dates
stringified, missing becomes the string `"nan"`. -/
def astype_str_scell : SCell → SCell
  | .s v => .s v
  | .q v => .s (toString v)
  | .dt d => .s (toString d)
  | .na => .s "nan"

/-- Row count of a table (length of its first column). -/
def nrows : STable → Nat
  | [] => 0
  | kv :: _ => kv.2.length

/-- `if "filedate" in df.columns: df["filedate"] = pd.to_datetime(df["filedate"], errors="coerce")`. -/
def parse_filedate_stage (p : String → Option Int) (t : STable) : STable :=
  if t.any (fun kv => decide (kv.1 = "filedate")) then
    t.map (fun kv =>
      if kv.1 = "filedate" then (kv.1, kv.2.map (to_datetime_scell p)) else kv)
  else t

/-- `if "enodeb_gnodeb" in df.columns: df.rename(columns={"enodeb_gnodeb": "gNodeB"}, inplace=True)`. -/
def rename_site_stage (t : STable) : STable :=
  if t.any (fun kv => decide (kv.1 = "enodeb_gnodeb")) then
    t.map (fun kv =>
      if kv.1 = "enodeb_gnodeb" then ("gNodeB", kv.2) else kv)
  else t

/-- `df["market"] = df["market"].astype(str) if "market" in df.columns else df.get("market", "")`. -/
def market_str_stage (t : STable) : STable :=
  if t.any (fun kv => decide (kv.1 = "market")) then
    t.map (fun kv =>
      if kv.1 = "market" then (kv.1, kv.2.map astype_str_scell) else kv)
  else t ++ [("market", List.replicate (nrows t) (.s ""))]

/-- `normalize_cols` of `dashboard.py`: header transform, coercing
`filedate` parse, `enodeb_gnodeb → gNodeB` rename, `market` string
coercion (with scalar-broadcast creation when absent). -/
def normalize_cols (p : String → Option Int) (t : STable) : STable :=
  market_str_stage (rename_site_stage
    (parse_filedate_stage p (t.map (fun kv => (normHeader kv.1, kv.2)))))

/-- A raw table as loaded from the sample CSV (site column spelled
`enodeb_gnodeb`). -/
def rawSampleTable : STable :=
  [("Region", [SCell.s "East"]),
   ("enodeb_gnodeb", [SCell.s "S1"]),
   ("market", [SCell.s "M1"]),
   ("filedate", [SCell.s "2024-01-01"])]

/-- Counterexample for C7: one normalization of the raw sample table
yields the canonical site header `"gNodeB"`; normalizing the result again
lower-cases that header to `"gnodeb"`, so the normalizer is not
idempotent and in particular re-normalization alters the canonical
site-identifier column name. -/
theorem normalize_not_idempotent_counterexample :
    ((normalize_cols specParse rawSampleTable).map (fun kv => kv.1) =
      ["region", "gNodeB", "market", "filedate"]) ∧
    ((normalize_cols specParse (normalize_cols specParse rawSampleTable)).map
      (fun kv => kv.1) = ["region", "gnodeb", "market", "filedate"]) ∧
    normalize_cols specParse (normalize_cols specParse rawSampleTable) ≠
      normalize_cols specParse rawSampleTable := by
  refine ⟨by decide, by decide, by decide⟩

end Telecom

namespace Telecom

/-- Whether a normalizer cell is already a parsed date or missing. -/
def isParsedOrNA : SCell → Bool
  | .dt _ => true
  | .na => true
  | _ => false

/-- Whether a normalizer cell is a string. -/
def isStrCell : SCell → Bool
  | .s _ => true
  | _ => false

theorem mem_of_ren {t : STable} {kv : String × List SCell}
    (h : kv ∈ t.map (fun x => if x.1 = "gNodeB" then ("gnodeb", x.2) else x))
    (hk : kv.1 ≠ "gnodeb") : kv ∈ t := by
  rcases List.mem_map.mp h with ⟨x, hx, hxe⟩
  by_cases hg : x.1 = "gNodeB"
  · rw [if_pos hg] at hxe
    subst hxe
    exact absurd rfl hk
  · rw [if_neg hg] at hxe
    subst hxe
    exact hx

theorem parse_stage_fixed (p : String → Option Int) (t : STable)
    (h : ∀ kv ∈ t, kv.1 = "filedate" → ∀ c ∈ kv.2, isParsedOrNA c = true) :
    parse_filedate_stage p t = t := by
  unfold parse_filedate_stage
  by_cases hc : t.any (fun kv => decide (kv.1 = "filedate")) = true
  · rw [if_pos hc]
    have hmap : ∀ kv ∈ t,
        (if kv.1 = "filedate" then (kv.1, kv.2.map (to_datetime_scell p))
          else kv) = id kv := by
      intro kv hkv
      by_cases hf : kv.1 = "filedate"
      · rw [if_pos hf]
        have hcells : kv.2.map (to_datetime_scell p) = kv.2.map id := by
          apply List.map_congr_left
          intro c hc2
          have hok := h kv hkv hf c hc2
          cases c with
          | s v => simp [isParsedOrNA] at hok
          | q v => simp [isParsedOrNA] at hok
          | dt d => rfl
          | na => rfl
        rw [hcells, List.map_id]
        exact Prod.mk.eta
      · rw [if_neg hf]
        rfl
    rw [List.map_congr_left hmap, List.map_id]
  · rw [if_neg hc]

theorem rename_stage_fixed (t : STable)
    (h : ∀ kv ∈ t, kv.1 ≠ "enodeb_gnodeb") :
    rename_site_stage t = t := by
  unfold rename_site_stage
  have hc : ¬(t.any (fun kv => decide (kv.1 = "enodeb_gnodeb")) = true) := by
    intro hc
    rcases List.any_eq_true.mp hc with ⟨kv, hkv, hp⟩
    exact h kv hkv (decide_eq_true_iff.mp hp)
  rw [if_neg hc]

theorem market_stage_fixed (t : STable)
    (hmem : "market" ∈ t.map (fun kv => kv.1))
    (h : ∀ kv ∈ t, kv.1 = "market" → ∀ c ∈ kv.2, isStrCell c = true) :
    market_str_stage t = t := by
  unfold market_str_stage
  have hc : t.any (fun kv => decide (kv.1 = "market")) = true := by
    rcases List.mem_map.mp hmem with ⟨kv, hkv, hk⟩
    exact List.any_eq_true.mpr ⟨kv, hkv, decide_eq_true hk⟩
  rw [if_pos hc]
  have hmap : ∀ kv ∈ t,
      (if kv.1 = "market" then (kv.1, kv.2.map astype_str_scell) else kv) =
        id kv := by
    intro kv hkv
    by_cases hm : kv.1 = "market"
    · rw [if_pos hm]
      have hcells : kv.2.map astype_str_scell = kv.2.map id := by
        apply List.map_congr_left
        intro c hc2
        have hok := h kv hkv hm c hc2
        cases c with
        | s v => rfl
        | q v => simp [isStrCell] at hok
        | dt d => simp [isStrCell] at hok
        | na => simp [isStrCell] at hok
      rw [hcells, List.map_id]
      exact Prod.mk.eta
    · rw [if_neg hm]
      rfl
  rw [List.map_congr_left hmap, List.map_id]

/-- Claim C7 as amended: on an already-normalized table (headers fixed by
the header transform except the canonical site column `"gNodeB"`, no
residual `enodeb_gnodeb` header, a `market` column of strings, `filedate`
cells already parsed or missing), re-running `normalize_cols` changes
exactly one thing: the canonical site header `"gNodeB"` is lower-cased to
`"gnodeb"`; all other headers, all types and all values are unchanged. -/
theorem normalize_cols_idempotent_except_site (p : String → Option Int)
    (t : STable)
    (hhead : ∀ kv ∈ t, normHeader kv.1 = kv.1 ∨ kv.1 = "gNodeB")
    (hnoraw : ∀ kv ∈ t, kv.1 ≠ "enodeb_gnodeb")
    (hmkt : "market" ∈ t.map (fun kv => kv.1))
    (hdate : ∀ kv ∈ t, kv.1 = "filedate" → ∀ c ∈ kv.2, isParsedOrNA c = true)
    (hmstr : ∀ kv ∈ t, kv.1 = "market" → ∀ c ∈ kv.2, isStrCell c = true) :
    normalize_cols p t =
      t.map (fun kv => if kv.1 = "gNodeB" then ("gnodeb", kv.2) else kv) := by
  unfold normalize_cols
  have hG : normHeader "gNodeB" = "gnodeb" := by decide
  have h1 : t.map (fun kv => (normHeader kv.1, kv.2)) =
      t.map (fun kv => if kv.1 = "gNodeB" then ("gnodeb", kv.2) else kv) := by
    apply List.map_congr_left
    intro kv hkv
    rcases hhead kv hkv with h | h
    · have hne : kv.1 ≠ "gNodeB" := by
        intro hk
        rw [hk, hG] at h
        exact absurd h (by decide)
      rw [if_neg hne, h]
    · rw [if_pos h, h, hG]
  rw [h1]
  have hdate2 : ∀ kv ∈ t.map
      (fun kv => if kv.1 = "gNodeB" then ("gnodeb", kv.2) else kv),
      kv.1 = "filedate" → ∀ c ∈ kv.2, isParsedOrNA c = true := by
    intro kv hkv hf
    have hkt : kv ∈ t := mem_of_ren hkv (by rw [hf]; decide)
    exact hdate kv hkt hf
  have hnoraw2 : ∀ kv ∈ t.map
      (fun kv => if kv.1 = "gNodeB" then ("gnodeb", kv.2) else kv),
      kv.1 ≠ "enodeb_gnodeb" := by
    intro kv hkv hf
    have hkt : kv ∈ t := mem_of_ren hkv (by rw [hf]; decide)
    exact hnoraw kv hkt hf
  have hmkt2 : "market" ∈ (t.map
      (fun kv => if kv.1 = "gNodeB" then ("gnodeb", kv.2) else kv)).map
      (fun kv => kv.1) := by
    rcases List.mem_map.mp hmkt with ⟨kv, hkv, hk⟩
    apply List.mem_map.mpr
    refine ⟨kv, List.mem_map.mpr ⟨kv, hkv, ?_⟩, hk⟩
    rw [if_neg]
    intro hg
    rw [hg] at hk
    exact absurd hk (by decide)
  have hmstr2 : ∀ kv ∈ t.map
      (fun kv => if kv.1 = "gNodeB" then ("gnodeb", kv.2) else kv),
      kv.1 = "market" → ∀ c ∈ kv.2, isStrCell c = true := by
    intro kv hkv hf
    have hkt : kv ∈ t := mem_of_ren hkv (by rw [hf]; decide)
    exact hmstr kv hkt hf
  rw [parse_stage_fixed p _ hdate2, rename_stage_fixed _ hnoraw2,
    market_stage_fixed _ hmkt2 hmstr2]

/-- An already-normalized table (one normalization of a raw table). -/
def normalizedSampleTable : STable :=
  [("region", [SCell.s "East"]),
   ("gNodeB", [SCell.s "S1"]),
   ("market", [SCell.s "M1"]),
   ("filedate", [SCell.dt 19723])]

/-- Witness for the amended C7 at a concrete normalized table: only the
site header changes, to `"gnodeb"`. -/
theorem normalize_cols_idempotent_except_site_witness :
    normalize_cols specParse normalizedSampleTable =
      [("region", [SCell.s "East"]),
       ("gnodeb", [SCell.s "S1"]),
       ("market", [SCell.s "M1"]),
       ("filedate", [SCell.dt 19723])] := by
  rw [normalize_cols_idempotent_except_site specParse normalizedSampleTable
    (by decide) (by decide) (by decide) (by decide) (by decide)]
  decide

end Telecom

namespace Telecom

/-!
## Mutation discipline (`dashboard.py` derived views / `new.py` pie block)

Python tables are heap objects; names are bound to heap positions, and
item assignment `t["col"] = ...` mutates the object in place while
`df.copy()` (the first statement of `apply_filters` and of both
resamplers) allocates a fresh object.  The heap is a list of tables
indexed by object id.  `newpy_zero_interval_step` embeds `new.py`'s
`df_delay["Zero Intervals"] = (df_delay[interval_cols] == 0).sum(axis=1)`:
an in-place write through the base name `df_delay`.
`dashboard_daily_pie_step` embeds `dashboard.py`'s
`sample_filtered = apply_filters(sample_data, is_daily=True)` followed by
`sample_filtered["zero_flag"] = sample_filtered["daily_avg"].apply(...)`:
the write lands on the freshly allocated copy, at a new heap id.
-/

/-- One cell of the mutation-model tables. -/
inductive PCell
  | s (v : String)
  | n (v : ℚ)
  | na
deriving DecidableEq

/-- A table object of the mutation model: column names plus row cell maps. -/
structure DTable where
  cols : List String
  rows : List (String → PCell)

/-- Python item assignment `t[name] = f(row)`: the column is appended when
absent and every row receives its new cell. -/
def setCol (t : DTable) (name : String) (f : (String → PCell) → PCell) :
    DTable :=
  { cols := if name ∈ t.cols then t.cols else t.cols ++ [name],
    rows := t.rows.map (fun r => fun c => if c = name then f r else r c) }

/-- `(df_delay[interval_cols] == 0).sum(axis=1)` for one row: the count of
interval cells exactly equal to zero (`NaN == 0` is `False`). -/
def zeroIntervalsOf (intervalCols : List String) (r : String → PCell) : PCell :=
  .n ((intervalCols.filter (fun c => decide (r c = .n 0))).length : ℚ)

/-- `lambda x: 1 if pd.notna(x) and x == 0 else 0` on a row's `daily_avg`. -/
def zeroFlagOf (r : String → PCell) : PCell :=
  .n (if r "daily_avg" = .n 0 then 1 else 0)

/-- The Python object heap: table objects indexed by id. -/
abbrev Heap := List DTable

/-- Heap ids the base-table names are bound to after normalization. -/
structure BaseEnv where
  perc : Nat
  delay : Nat

/-- `new.py`'s pie block write
`df_delay["Zero Intervals"] = (df_delay[interval_cols] == 0).sum(axis=1)`:
an in-place item assignment on the object bound to the base name
`df_delay`. -/
def newpy_zero_interval_step (intervalCols : List String) (env : BaseEnv)
    (h : Heap) : Heap :=
  match h[env.delay]? with
  | some t =>
    h.set env.delay (setCol t "Zero Intervals" (zeroIntervalsOf intervalCols))
  | none => h

/-- `apply_filters` on a mutation-model table: starts from `df.copy()`
and row-subsets by the region/market/date equalities and the
`isin(selected_gnodes)` predicate (`none` is the "All" sentinel; an empty
site selection skips the site predicate).  The result is a fresh object. -/
def apply_filters_t (selRegion selMarket selDate : Option String)
    (gnodes : List String) (t : DTable) : DTable :=
  { cols := t.cols,
    rows := t.rows.filter (fun r =>
      (match selRegion with
       | none => true
       | some v => decide (r "region" = .s v)) &&
      (match selMarket with
       | none => true
       | some v => decide (r "market" = .s v)) &&
      (match selDate with
       | none => true
       | some v => decide (r "date" = .s v)) &&
      (gnodes.isEmpty || gnodes.any (fun g => decide (r "gNodeB" = .s g)))) }

/-- `dashboard.py`'s daily pie block in the heap model:
`sample_filtered = apply_filters(...)` allocates a fresh object at the
next free id, and `sample_filtered["zero_flag"] = ...` writes at that
fresh id. -/
def dashboard_daily_pie_step (selRegion selMarket selDate : Option String)
    (gnodes : List String) (env : BaseEnv) (h : Heap) : Heap :=
  match h[env.perc]? with
  | some t =>
    (h ++ [apply_filters_t selRegion selMarket selDate gnodes t]).set h.length
      (setCol (apply_filters_t selRegion selMarket selDate gnodes t)
        "zero_flag" zeroFlagOf)
  | none => h

/-- A concrete base arrival table for the counterexample heap. -/
def percBase : DTable :=
  { cols := ["region", "market", "gNodeB", "filedate", "00:00"],
    rows := [fun c => if c = "00:00" then .n 0 else .s "x"] }

/-- A concrete base delay table for the counterexample heap. -/
def delayBase : DTable :=
  { cols := ["region", "market", "gNodeB", "filedate", "00:00"],
    rows := [fun c => if c = "00:00" then .n 0 else .s "x"] }

/-- Counterexample for C6: `new.py`'s zero-interval step mutates the base
delay table in place — after the step, the object at the `df_delay` heap
id has gained a `"Zero Intervals"` column, so the pipeline does not leave
the base tables unchanged after normalization. -/
theorem base_table_mutation_counterexample :
    ((newpy_zero_interval_step ["00:00"] ⟨0, 1⟩ [percBase, delayBase])[1]?).map
        (fun t => t.cols) =
      some ["region", "market", "gNodeB", "filedate", "00:00",
        "Zero Intervals"] ∧
    (([percBase, delayBase] : Heap)[1]?).map (fun t => t.cols) =
      some ["region", "market", "gNodeB", "filedate", "00:00"] ∧
    ((newpy_zero_interval_step ["00:00"] ⟨0, 1⟩ [percBase, delayBase])[1]?).map
        (fun t => t.cols) ≠
      (([percBase, delayBase] : Heap)[1]?).map (fun t => t.cols) := by
  refine ⟨by decide, by decide, by decide⟩

/-- Claim C6 as amended: the dashboard pipeline's aggregation steps leave
every pre-existing heap object — in particular both base tables —
unchanged, because `apply_filters` copies before the `zero_flag` write
lands on the fresh object; `new.py`'s zero-interval step, however,
mutates the base delay table in place, rewriting the object bound to
`df_delay` to the same table with a `"Zero Intervals"` column appended. -/
theorem mutation_profile (intervalCols : List String)
    (selRegion selMarket selDate : Option String) (gnodes : List String)
    (env : BaseEnv) (h : Heap) (i : Nat) (hi : i < h.length) :
    (dashboard_daily_pie_step selRegion selMarket selDate gnodes env h)[i]? =
      h[i]? ∧
    (∀ t, h[env.delay]? = some t →
      (newpy_zero_interval_step intervalCols env h)[env.delay]? =
        some (setCol t "Zero Intervals" (zeroIntervalsOf intervalCols))) := by
  constructor
  · unfold dashboard_daily_pie_step
    cases hp : h[env.perc]? with
    | none => rfl
    | some t =>
      rw [List.getElem?_set_ne (Nat.ne_of_lt hi).symm,
        List.getElem?_append_left hi]
  · intro t ht
    unfold newpy_zero_interval_step
    rw [ht]
    have hlt : env.delay < h.length := by
      by_contra hge
      rw [List.getElem?_eq_none (Nat.le_of_not_lt hge)] at ht
      cases ht
    rw [List.getElem?_set_self hlt]

/-- Witness for the amended C6 on a concrete two-object heap: the
dashboard daily pie step leaves the base arrival table untouched, and the
`new.py` step rewrites the delay object to its column-extended form. -/
theorem mutation_profile_witness :
    (dashboard_daily_pie_step none none none [] ⟨0, 1⟩
      [percBase, delayBase])[0]? = ([percBase, delayBase] : Heap)[0]? ∧
    (newpy_zero_interval_step ["00:00"] ⟨0, 1⟩ [percBase, delayBase])[1]? =
      some (setCol delayBase "Zero Intervals" (zeroIntervalsOf ["00:00"])) :=
  ⟨(mutation_profile ["00:00"] none none none [] ⟨0, 1⟩
      [percBase, delayBase] 0 (by decide)).1,
   (mutation_profile ["00:00"] none none none [] ⟨0, 1⟩
      [percBase, delayBase] 1 (by decide)).2 delayBase rfl⟩

end Telecom

namespace Telecom

/-!
## Market domain of the `new.py` variant (cascading filters)

`new.py` line 33 builds the market candidate domain from the delay table
alone:
`markets = df_delay[df_delay["region"] == selected_region]["market"].unique()`
— no union with the arrival table, no `dropna`, no sort, and no "All"
sentinel (a region is always selected). -/

/-- The market domain of `new.py`'s cascading filters: distinct market
values of the delay-table rows whose region equals the selection. -/
def newpy_markets (delay : List IdRow) (R : String) : List String :=
  ((delay.filter (fun r => decide (r.region = R))).map (fun r => r.market)).dedup

theorem mem_newpy_markets (delay : List IdRow) (R m : String) :
    m ∈ newpy_markets delay R ↔ ∃ r ∈ delay, r.region = R ∧ r.market = m := by
  unfold newpy_markets
  simp only [List.mem_dedup, List.mem_map, List.mem_filter, decide_eq_true_iff]
  constructor
  · rintro ⟨r, ⟨hr, hR⟩, hm⟩
    exact ⟨r, hr, hR, hm⟩
  · rintro ⟨r, hr, hR, hm⟩
    exact ⟨r, ⟨hr, hR⟩, hm⟩

/-- Counterexample for C3: with an arrival table carrying the market
`"M1"` under region `"East"` and a delay table carrying only `"M2"`
there, `"M1"` has a region-East row in the union of both source tables,
yet `new.py`'s cascading filter engine does not offer it — its market
domain is built from the delay table alone, so a market appearing in only
the arrival table is not selectable, refuting the claim for the cited
`new.py` engine. -/
theorem newpy_market_domain_counterexample :
    (∃ r ∈ combined [⟨"East", "M1"⟩] [⟨"East", "M2"⟩],
      r.region = "East" ∧ r.market = "M1") ∧
    newpy_markets [⟨"East", "M2"⟩] "East" = ["M2"] ∧
    "M1" ∉ newpy_markets [⟨"East", "M2"⟩] "East" := by
  refine ⟨by decide, by decide, by decide⟩

end Telecom
